import Mathlib

/-!
Verification of the change-detection core of the Figma-Telegram-Bot
repository: the version tracker (`figma_telegram_bot/utils/version_tracker.py`),
the comment tracker (`figma_telegram_bot/utils/comment_tracker.py`) and the
subscription manager (`figma_telegram_bot/utils/subscription_manager.py`).

Python dictionaries are embedded as association lists that preserve insertion
order (as Python 3.7+ dicts do); Python sets of strings are embedded as
`Finset String`.  The external Figma API client is a collaborator: it is
passed in as a function parameter (`fetch` for versions, `fetchComments` for
comment lists).  `FigmaClient.get_file_version` returns `""` on error (the
trackers test it with Python truthiness, `if not version`), so the version
collaborator is a raw `String`-valued function and failure is the empty
string.  A comment dict's `comment.get("id")` may be missing (`None`) or
empty; it is embedded as `Option String` with the truthiness normalisation
`truthyId`.  File persistence (`_save_versions`, `_save_comments`,
`_save_subscriptions`) is I/O with no effect on the in-memory maps and is not
modelled.
-/

namespace PyDict

/-- Python `d[k]` / `d.get(k)`: first (and with distinct keys, only) binding. -/
def get {α β : Type} [DecidableEq α] : List (α × β) → α → Option β
  | [], _ => none
  | (k, v) :: rest, key => if k = key then some v else get rest key

/-- Python `d[k] = v`: update the binding in place, or append a new one. -/
def set {α β : Type} [DecidableEq α] : List (α × β) → α → β → List (α × β)
  | [], key, v => [(key, v)]
  | (k, w) :: rest, key, v =>
      if k = key then (key, v) :: rest else (k, w) :: set rest key v

/-- Python `del d[k]`: drop the first binding of the key. -/
def del {α β : Type} [DecidableEq α] : List (α × β) → α → List (α × β)
  | [], _ => []
  | (k, w) :: rest, key => if k = key then rest else (k, w) :: del rest key

/-- Python `list(d.keys())`. -/
def keys {α β : Type} (d : List (α × β)) : List α := d.map Prod.fst

end PyDict

/-! ## Version tracker (`FigmaVersionTracker`)

State: `versions : Dict[str, str]`, tracked file key ↦ last-seen version
stamp.  The collaborator `fetch` embeds `FigmaClient.get_file_version`. -/

namespace FigmaVersionTracker

/-- The in-memory state of `FigmaVersionTracker`: its `versions` dict. -/
abbrev VState : Type := List (String × String)

/-- `add_file_to_track`: no-op when already tracked; otherwise fetch the
current version and store it as baseline when the fetch is truthy. -/
def add_file_to_track (fetch : String → String) (s : VState) (file_key : String) :
    VState :=
  if (PyDict.get s file_key).isSome then s
  else
    let version := fetch file_key
    if version = "" then s else PyDict.set s file_key version

/-- `remove_file_from_track`: delete the entry when present. -/
def remove_file_from_track (s : VState) (file_key : String) : VState :=
  if (PyDict.get s file_key).isSome then PyDict.del s file_key else s

/-- `check_file_updates`: returns the new state and the Python triple
`(изменился_ли_файл, старая_версия, новая_версия)`. -/
def check_file_updates (fetch : String → String) (s : VState) (file_key : String) :
    VState × Bool × Option String × Option String :=
  match PyDict.get s file_key with
  | none => (s, false, none, none)
  | some old_version =>
      let new_version := fetch file_key
      if new_version = "" then (s, false, some old_version, none)
      else if old_version ≠ new_version then
        (PyDict.set s file_key new_version, true, some old_version, some new_version)
      else (s, false, some old_version, some new_version)

/-- One entry of the list returned by `check_all_updates`. -/
structure UpdateInfo where
  file_key : String
  old_version : Option String
  new_version : Option String
deriving DecidableEq, Repr

/-- The loop body of `check_all_updates` over a snapshot of the keys. -/
def check_all_go (fetch : String → String) :
    List String → VState → VState × List UpdateInfo
  | [], s => (s, [])
  | k :: ks, s =>
      let r := check_file_updates fetch s k
      let rest := check_all_go fetch ks r.1
      if r.2.1 then (rest.1, ⟨k, r.2.2.1, r.2.2.2⟩ :: rest.2) else rest

/-- `check_all_updates`: sweep over `list(self.versions.keys())`, collecting
the files whose check reported a change. -/
def check_all_updates (fetch : String → String) (s : VState) :
    VState × List UpdateInfo :=
  check_all_go fetch (PyDict.keys s) s

/-- Specification predicate: in state `s`, a check of `k` against `fetch`
would report a change right now. -/
def changedNow (fetch : String → String) (s : VState) (k : String) : Bool :=
  match PyDict.get s k with
  | none => false
  | some old => fetch k ≠ "" ∧ old ≠ fetch k

/-- The entry that `check_file_updates` contributes for key `k` when run in
state `s`, if any. -/
def entryOf (fetch : String → String) (s : VState) (k : String) : Option UpdateInfo :=
  if changedNow fetch s k then some ⟨k, PyDict.get s k, some (fetch k)⟩ else none

end FigmaVersionTracker

/-! ## Comment tracker (`FigmaCommentTracker`)

State: `comments : Dict[str, Set[str]]`, tracked file key ↦ set of already
seen comment IDs.  The collaborator `fetchComments` embeds
`FigmaClient.get_file_comments`; a fetched comment is a dict whose `"id"`
field may be absent or empty (both falsy). -/

namespace FigmaCommentTracker

/-- A comment dict as consumed by the tracker: its `"id"` field plus the
rest of the payload (message etc.), which the tracker never branches on. -/
structure Comment where
  id : Option String
  message : String
deriving DecidableEq, Repr

/-- Python truthiness of `comment.get("id")`: `None` and `""` are falsy. -/
def truthyId (c : Comment) : Option String :=
  match c.id with
  | none => none
  | some i => if i = "" then none else some i

/-- The in-memory state of `FigmaCommentTracker`: its `comments` dict. -/
abbrev CState : Type := List (String × Finset String)

/-- The set comprehension
`{comment.get("id") for comment in current_comments if comment.get("id")}`. -/
def idsOf (cs : List Comment) : Finset String :=
  (cs.filterMap truthyId).toFinset

/-- `add_file_to_track`: fetch the current comments; if the file is already
tracked, union the fresh IDs into the existing seen-set (`set.update`),
otherwise store the fresh IDs as the baseline. -/
def add_file_to_track (fetchComments : String → List Comment) (s : CState)
    (file_key : String) : CState :=
  let comment_ids := idsOf (fetchComments file_key)
  match PyDict.get s file_key with
  | some old => PyDict.set s file_key (old ∪ comment_ids)
  | none => PyDict.set s file_key comment_ids

/-- `remove_file_from_track`: delete the entry when present. -/
def remove_file_from_track (s : CState) (file_key : String) : CState :=
  if (PyDict.get s file_key).isSome then PyDict.del s file_key else s

/-- The `for comment in current_comments` loop of `check_file_comments`:
collects comments whose truthy ID is not yet known, adding each collected ID
to the (aliased, mutated in place) known set as it goes. -/
def checkLoop : List Comment → Finset String → List Comment × Finset String
  | [], seen => ([], seen)
  | c :: cs, seen =>
      match truthyId c with
      | some i =>
          if i ∈ seen then checkLoop cs seen
          else
            let rest := checkLoop cs (insert i seen)
            (c :: rest.1, rest.2)
      | none => checkLoop cs seen

/-- `check_file_comments`: returns the new state and the Python pair
`(список_новых_комментариев, есть_ли_новые_комментарии)`. -/
def check_file_comments (fetchComments : String → List Comment) (s : CState)
    (file_key : String) : CState × List Comment × Bool :=
  match PyDict.get s file_key with
  | none => (s, [], false)
  | some known =>
      let r := checkLoop (fetchComments file_key) known
      if r.1 ≠ [] then (PyDict.set s file_key r.2, r.1, true)
      else (s, [], false)

/-- `reset_comments_for_file`: clear the seen-set of a tracked file to the
empty set and return `True`; return `False` when the file is untracked. -/
def reset_comments_for_file (s : CState) (file_key : String) : CState × Bool :=
  match PyDict.get s file_key with
  | none => (s, false)
  | some _ => (PyDict.set s file_key ∅, true)

/-- Specification predicate: the comment would be reported as new against
seen-set `seen` (its ID is truthy and not yet seen). -/
def isNewFor (seen : Finset String) (c : Comment) : Bool :=
  match truthyId c with
  | some i => if i ∈ seen then false else true
  | none => false

end FigmaCommentTracker

/-! ## Subscription manager (`SubscriptionManager`)

State: two independent dicts `chat_id ↦ set of file keys`, one for file
update subscriptions and one for comment subscriptions. -/

namespace SubscriptionManager

/-- The in-memory state of `SubscriptionManager`. -/
structure SM where
  user_subscriptions : List (Int × Finset String)
  comment_subscriptions : List (Int × Finset String)
deriving DecidableEq

/-- The state of a fresh manager with no persisted subscriptions. -/
def initial : SM := ⟨[], []⟩

/-- `add_file_subscription`: ensure the chat has an entry, then set-insert
the file key and persist. -/
def add_file_subscription (s : SM) (chat_id : Int) (file_key : String) : SM :=
  let cur := (PyDict.get s.user_subscriptions chat_id).getD ∅
  { s with user_subscriptions :=
      PyDict.set s.user_subscriptions chat_id (insert file_key cur) }

/-- `remove_file_subscription`: remove the edge if present; drop the chat's
entry entirely when its set becomes empty.  Returns whether an edge existed. -/
def remove_file_subscription (s : SM) (chat_id : Int) (file_key : String) :
    SM × Bool :=
  match PyDict.get s.user_subscriptions chat_id with
  | none => (s, false)
  | some ks =>
      if file_key ∈ ks then
        let ks' := ks.erase file_key
        if ks' = ∅ then
          ({ s with user_subscriptions := PyDict.del s.user_subscriptions chat_id },
            true)
        else
          ({ s with user_subscriptions :=
              PyDict.set s.user_subscriptions chat_id ks' }, true)
      else (s, false)

/-- `add_comment_subscription`: same as `add_file_subscription` on the
comment map. -/
def add_comment_subscription (s : SM) (chat_id : Int) (file_key : String) : SM :=
  let cur := (PyDict.get s.comment_subscriptions chat_id).getD ∅
  { s with comment_subscriptions :=
      PyDict.set s.comment_subscriptions chat_id (insert file_key cur) }

/-- `remove_comment_subscription`: same as `remove_file_subscription` on the
comment map. -/
def remove_comment_subscription (s : SM) (chat_id : Int) (file_key : String) :
    SM × Bool :=
  match PyDict.get s.comment_subscriptions chat_id with
  | none => (s, false)
  | some ks =>
      if file_key ∈ ks then
        let ks' := ks.erase file_key
        if ks' = ∅ then
          ({ s with comment_subscriptions :=
              PyDict.del s.comment_subscriptions chat_id }, true)
        else
          ({ s with comment_subscriptions :=
              PyDict.set s.comment_subscriptions chat_id ks' }, true)
      else (s, false)

/-- `get_file_subscribers`: every chat whose subscription set contains the
file key, in dict iteration order. -/
def get_file_subscribers (s : SM) (file_key : String) : List Int :=
  (s.user_subscriptions.filter (fun p => file_key ∈ p.2)).map Prod.fst

/-- `get_comment_subscribers`: same on the comment map. -/
def get_comment_subscribers (s : SM) (file_key : String) : List Int :=
  (s.comment_subscriptions.filter (fun p => file_key ∈ p.2)).map Prod.fst

/-- One mutating registry call, for reasoning about call sequences. -/
inductive SubOp where
  | addFile (chat_id : Int) (file_key : String)
  | removeFile (chat_id : Int) (file_key : String)
  | addComment (chat_id : Int) (file_key : String)
  | removeComment (chat_id : Int) (file_key : String)
deriving DecidableEq, Repr

/-- Apply one registry call (discarding the boolean result of removals). -/
def applyOp (s : SM) : SubOp → SM
  | .addFile c k => add_file_subscription s c k
  | .removeFile c k => (remove_file_subscription s c k).1
  | .addComment c k => add_comment_subscription s c k
  | .removeComment c k => (remove_comment_subscription s c k).1

/-- Apply a sequence of registry calls, oldest first. -/
def applyOps (s : SM) (ops : List SubOp) : SM := ops.foldl applyOp s

/-- Every entry of the dict carries a non-empty subscription set. -/
def NonemptyVals (d : List (Int × Finset String)) : Prop :=
  ∀ p ∈ d, p.2 ≠ (∅ : Finset String)

/-- The registry invariant: no subscriber is mapped to an empty set, in
either subscription class. -/
def Inv (s : SM) : Prop :=
  NonemptyVals s.user_subscriptions ∧ NonemptyVals s.comment_subscriptions

end SubscriptionManager

/-! ## Association-list lemmas -/

namespace PyDict

theorem get_set_self {α β : Type} [DecidableEq α] (d : List (α × β)) (k : α) (v : β) :
    get (set d k v) k = some v := by
  induction d with
  | nil => simp [get, set]
  | cons p rest ih =>
      obtain ⟨k', w⟩ := p
      by_cases h : k' = k
      · simp [set, get, h]
      · simp [set, get, h, ih]

theorem get_set_ne {α β : Type} [DecidableEq α] (d : List (α × β)) (k k' : α) (v : β)
    (h : k ≠ k') : get (set d k v) k' = get d k' := by
  induction d with
  | nil => simp [get, set, h]
  | cons p rest ih =>
      obtain ⟨a, w⟩ := p
      by_cases ha : a = k
      · subst ha
        simp [set, get, h]
      · simp [set, get, ha, ih]

theorem set_get_eq {α β : Type} [DecidableEq α] (d : List (α × β)) (k : α) (v : β)
    (h : get d k = some v) : set d k v = d := by
  induction d with
  | nil => simp [get] at h
  | cons p rest ih =>
      obtain ⟨a, w⟩ := p
      by_cases ha : a = k
      · subst ha
        simp [get] at h
        simp [set, h]
      · simp [get, ha] at h
        simp [set, ha, ih h]

theorem set_set_same {α β : Type} [DecidableEq α] (d : List (α × β)) (k : α) (v w : β) :
    set (set d k v) k w = set d k w := by
  induction d with
  | nil => simp [set]
  | cons p rest ih =>
      obtain ⟨a, u⟩ := p
      by_cases ha : a = k
      · simp [set, ha]
      · simp [set, ha, ih]

theorem keys_set_of_mem {α β : Type} [DecidableEq α] (d : List (α × β)) (k : α) (v : β)
    (h : (get d k).isSome) : keys (set d k v) = keys d := by
  induction d with
  | nil => simp [get] at h
  | cons p rest ih =>
      obtain ⟨a, w⟩ := p
      by_cases ha : a = k
      · simp [set, keys, ha]
      · simp [get, ha] at h
        simp [set, keys, ha] at ih ⊢
        exact ih h

theorem mem_of_mem_set {α β : Type} [DecidableEq α] {d : List (α × β)} {k : α} {v : β}
    {p : α × β} (h : p ∈ set d k v) : p = (k, v) ∨ p ∈ d := by
  induction d with
  | nil => simpa [set] using h
  | cons q rest ih =>
      obtain ⟨a, w⟩ := q
      by_cases ha : a = k
      · simp [set, ha] at h
        rcases h with h | h
        · exact Or.inl (by simp [h])
        · exact Or.inr (by simp [h])
      · simp [set, ha] at h
        rcases h with h | h
        · exact Or.inr (by simp [h])
        · rcases ih h with h' | h'
          · exact Or.inl h'
          · exact Or.inr (by simp [h'])

theorem mem_of_mem_del {α β : Type} [DecidableEq α] {d : List (α × β)} {k : α}
    {p : α × β} (h : p ∈ del d k) : p ∈ d := by
  induction d with
  | nil => simp [del] at h
  | cons q rest ih =>
      obtain ⟨a, w⟩ := q
      by_cases ha : a = k
      · simp [del, ha] at h
        simp [h]
      · simp [del, ha] at h
        rcases h with h | h
        · simp [h]
        · simp [ih h]

end PyDict

/-! ## Version tracker lemmas -/

namespace FigmaVersionTracker

theorem get_check_ne (fetch : String → String) (s : VState) (k k' : String)
    (h : k ≠ k') :
    PyDict.get (check_file_updates fetch s k).1 k' = PyDict.get s k' := by
  unfold check_file_updates
  cases hg : PyDict.get s k with
  | none => rfl
  | some old =>
      by_cases hf : fetch k = ""
      · simp [hf]
      · by_cases hne : old ≠ fetch k
        · simp [hf, hne, PyDict.get_set_ne s k k' (fetch k) h]
        · simp [hf, hne]

theorem entryOf_ext (fetch : String → String) (s s' : VState) (k : String)
    (h : PyDict.get s k = PyDict.get s' k) :
    entryOf fetch s k = entryOf fetch s' k := by
  unfold entryOf changedNow
  rw [h]

theorem check_all_go_snd (fetch : String → String) (ks : List String) (s : VState)
    (h : ks.Nodup) :
    (check_all_go fetch ks s).2 = ks.filterMap (entryOf fetch s) := by
  induction ks generalizing s with
  | nil => simp [check_all_go]
  | cons k ks ih =>
      obtain ⟨hk, hks⟩ := List.nodup_cons.mp h
      have hrest : ∀ s' : VState, (∀ a ∈ ks, PyDict.get s' a = PyDict.get s a) →
          (check_all_go fetch ks s').2 = ks.filterMap (entryOf fetch s) := by
        intro s' hs'
        rw [ih s' hks]
        exact List.filterMap_congr (fun a ha => entryOf_ext fetch s' s a (hs' a ha))
      have hgo : check_all_go fetch (k :: ks) s =
          (if (check_file_updates fetch s k).2.1 then
            ((check_all_go fetch ks (check_file_updates fetch s k).1).1,
              ⟨k, (check_file_updates fetch s k).2.2.1,
                (check_file_updates fetch s k).2.2.2⟩ ::
                (check_all_go fetch ks (check_file_updates fetch s k).1).2)
          else check_all_go fetch ks (check_file_updates fetch s k).1) := rfl
      cases hg : PyDict.get s k with
      | none =>
          have hr : check_file_updates fetch s k = (s, false, none, none) := by
            simp [check_file_updates, hg]
          have he : entryOf fetch s k = none := by
            simp [entryOf, changedNow, hg]
          rw [hgo, hr, List.filterMap_cons, he]
          simpa using hrest s (fun a _ => rfl)
      | some old =>
          by_cases hf : fetch k = ""
          · have hr : check_file_updates fetch s k = (s, false, some old, none) := by
              simp [check_file_updates, hg, hf]
            have he : entryOf fetch s k = none := by
              simp [entryOf, changedNow, hg, hf]
            rw [hgo, hr, List.filterMap_cons, he]
            simpa using hrest s (fun a _ => rfl)
          · by_cases hne : old = fetch k
            · have hr : check_file_updates fetch s k =
                  (s, false, some old, some (fetch k)) := by
                simp [check_file_updates, hg, hf, hne]
              have he : entryOf fetch s k = none := by
                simp [entryOf, changedNow, hg, hf, hne]
              rw [hgo, hr, List.filterMap_cons, he]
              simpa using hrest s (fun a _ => rfl)
            · have hr : check_file_updates fetch s k =
                  (PyDict.set s k (fetch k), true, some old, some (fetch k)) := by
                simp [check_file_updates, hg, hf, hne]
              have he : entryOf fetch s k =
                  some ⟨k, some old, some (fetch k)⟩ := by
                simp [entryOf, changedNow, hg, hf, hne]
              rw [hgo, hr, List.filterMap_cons, he]
              simpa using hrest (PyDict.set s k (fetch k))
                (fun a ha => PyDict.get_set_ne s k a (fetch k)
                  (fun he2 => hk (he2 ▸ ha)))

theorem check_all_updates_snd (fetch : String → String) (s : VState)
    (h : (PyDict.keys s).Nodup) :
    (check_all_updates fetch s).2 = (PyDict.keys s).filterMap (entryOf fetch s) :=
  check_all_go_snd fetch (PyDict.keys s) s h

theorem filterMap_entryOf_map_key (fetch : String → String) (s : VState)
    (ks : List String) :
    (ks.filterMap (entryOf fetch s)).map UpdateInfo.file_key =
      ks.filter (changedNow fetch s) := by
  induction ks with
  | nil => simp
  | cons k ks ih =>
      rw [List.filterMap_cons, List.filter_cons]
      by_cases hc : changedNow fetch s k
      · have he : entryOf fetch s k = some ⟨k, PyDict.get s k, some (fetch k)⟩ := by
          simp [entryOf, hc]
        rw [he]
        simp [hc, ih]
      · have he : entryOf fetch s k = none := by
          simp [entryOf, hc]
        rw [he]
        simp [hc, ih]

end FigmaVersionTracker

/-! ## Comment tracker lemmas -/

namespace FigmaCommentTracker

theorem idsOf_cons_some (c : Comment) (cs : List Comment) (i : String)
    (h : truthyId c = some i) : idsOf (c :: cs) = insert i (idsOf cs) := by
  simp [idsOf, List.filterMap_cons, h]

theorem idsOf_cons_none (c : Comment) (cs : List Comment)
    (h : truthyId c = none) : idsOf (c :: cs) = idsOf cs := by
  simp [idsOf, List.filterMap_cons, h]

theorem checkLoop_snd (cs : List Comment) (seen : Finset String) :
    (checkLoop cs seen).2 = seen ∪ idsOf cs := by
  induction cs generalizing seen with
  | nil => simp [checkLoop, idsOf]
  | cons c cs ih =>
      cases ht : truthyId c with
      | none =>
          rw [idsOf_cons_none c cs ht]
          simpa [checkLoop, ht] using ih seen
      | some i =>
          rw [idsOf_cons_some c cs i ht]
          by_cases hm : i ∈ seen
          · rw [Finset.union_insert, Finset.insert_eq_self.mpr
              (Finset.mem_union_left _ hm)]
            simpa [checkLoop, ht, hm] using ih seen
          · have : (checkLoop (c :: cs) seen).2 = (checkLoop cs (insert i seen)).2 := by
              simp [checkLoop, ht, hm]
            rw [this, ih (insert i seen), Finset.insert_union, Finset.union_insert]

theorem isNewFor_ext (seen seen' : Finset String) (c : Comment)
    (h : ∀ i, truthyId c = some i → (i ∈ seen ↔ i ∈ seen')) :
    isNewFor seen c = isNewFor seen' c := by
  unfold isNewFor
  cases ht : truthyId c with
  | none => rfl
  | some i =>
      by_cases hm : i ∈ seen
      · simp [hm, (h i ht).mp hm]
      · have hm' : i ∉ seen' := fun hx => hm ((h i ht).mpr hx)
        simp [hm, hm']

theorem checkLoop_fst (cs : List Comment) (seen : Finset String)
    (h : (cs.filterMap truthyId).Nodup) :
    (checkLoop cs seen).1 = cs.filter (isNewFor seen) := by
  induction cs generalizing seen with
  | nil => simp [checkLoop]
  | cons c cs ih =>
      cases ht : truthyId c with
      | none =>
          have hn : ((c :: cs).filterMap truthyId).Nodup := h
          rw [List.filterMap_cons, ht] at hn
          have hh : isNewFor seen c = false := by simp [isNewFor, ht]
          rw [List.filter_cons]
          simpa [checkLoop, ht, hh] using ih seen hn
      | some i =>
          have hn := h
          rw [List.filterMap_cons, ht] at hn
          obtain ⟨hi, hcs⟩ := List.nodup_cons.mp hn
          by_cases hm : i ∈ seen
          · have hh : isNewFor seen c = false := by simp [isNewFor, ht, hm]
            rw [List.filter_cons]
            simpa [checkLoop, ht, hm, hh] using ih seen hcs
          · have hh : isNewFor seen c = true := by simp [isNewFor, ht, hm]
            have hstep : (checkLoop (c :: cs) seen).1 =
                c :: (checkLoop cs (insert i seen)).1 := by
              simp [checkLoop, ht, hm]
            rw [hstep, ih (insert i seen) hcs, List.filter_cons, hh]
            simp only [if_pos rfl]
            congr 1
            refine List.filter_congr ?_
            intro a ha
            refine isNewFor_ext _ _ a ?_
            intro j hj
            have hj' : j ∈ cs.filterMap truthyId :=
              List.mem_filterMap.mpr ⟨a, ha, hj⟩
            have hji : j ≠ i := fun he => hi (he ▸ hj')
            simp [Finset.mem_insert, hji]

theorem idsOf_subset_of_no_new (cs : List Comment) (seen : Finset String)
    (h : cs.filter (isNewFor seen) = []) : idsOf cs ⊆ seen := by
  intro i hi
  obtain ⟨c, hc, ht⟩ := List.mem_filterMap.mp (List.mem_toFinset.mp hi)
  have hfalse := List.filter_eq_nil_iff.mp h c hc
  unfold isNewFor at hfalse
  rw [ht] at hfalse
  by_cases hm : i ∈ seen
  · exact hm
  · simp [hm] at hfalse

/-- Characterisation of `check_file_comments` on a tracked file: the reported
comments are those fetched with an unseen truthy ID, the seen-set becomes the
union with all fetched truthy IDs, and other files are untouched. -/
theorem check_file_comments_tracked (fetchComments : String → List Comment)
    (s : CState) (file_key : String) (seen : Finset String)
    (hs : PyDict.get s file_key = some seen)
    (hnd : ((fetchComments file_key).filterMap truthyId).Nodup) :
    (check_file_comments fetchComments s file_key).2.1 =
      (fetchComments file_key).filter (isNewFor seen)
    ∧ PyDict.get (check_file_comments fetchComments s file_key).1 file_key =
        some (seen ∪ idsOf (fetchComments file_key))
    ∧ ∀ k2, k2 ≠ file_key →
        PyDict.get (check_file_comments fetchComments s file_key).1 k2 =
          PyDict.get s k2 := by
  have h1 := checkLoop_fst (fetchComments file_key) seen hnd
  have h2 := checkLoop_snd (fetchComments file_key) seen
  by_cases hne : (checkLoop (fetchComments file_key) seen).1 = []
  · have hres : check_file_comments fetchComments s file_key = (s, [], false) := by
      simp [check_file_comments, hs, hne]
    have hsub : idsOf (fetchComments file_key) ⊆ seen :=
      idsOf_subset_of_no_new _ seen (h1 ▸ hne)
    refine ⟨?_, ?_, ?_⟩
    · rw [hres, ← h1, hne]
    · rw [hres]
      simpa [hs] using (Finset.union_eq_left.mpr hsub).symm
    · intro k2 _
      rw [hres]
  · have hres : check_file_comments fetchComments s file_key =
        (PyDict.set s file_key (checkLoop (fetchComments file_key) seen).2,
          (checkLoop (fetchComments file_key) seen).1, true) := by
      simp [check_file_comments, hs, hne]
    refine ⟨?_, ?_, ?_⟩
    · rw [hres, ← h1]
    · rw [hres]
      simpa [PyDict.get_set_self] using congrArg some h2
    · intro k2 hk2
      rw [hres]
      exact PyDict.get_set_ne s file_key k2 _ (fun he => hk2 he.symm)

end FigmaCommentTracker

/-! ## Subscription manager lemmas -/

namespace SubscriptionManager

theorem nonemptyVals_set_insert (d : List (Int × Finset String)) (c : Int)
    (v : Finset String) (hv : v ≠ ∅) (h : NonemptyVals d) :
    NonemptyVals (PyDict.set d c v) := by
  intro p hp
  rcases PyDict.mem_of_mem_set hp with h' | h'
  · rw [h']
    exact hv
  · exact h p h'

theorem nonemptyVals_del (d : List (Int × Finset String)) (c : Int)
    (h : NonemptyVals d) : NonemptyVals (PyDict.del d c) :=
  fun p hp => h p (PyDict.mem_of_mem_del hp)

theorem applyOp_inv (s : SM) (op : SubOp) (h : Inv s) : Inv (applyOp s op) := by
  obtain ⟨hu, hc⟩ := h
  cases op with
  | addFile c k =>
      refine ⟨?_, hc⟩
      exact nonemptyVals_set_insert _ c _ (Finset.insert_ne_empty _ _) hu
  | addComment c k =>
      refine ⟨hu, ?_⟩
      exact nonemptyVals_set_insert _ c _ (Finset.insert_ne_empty _ _) hc
  | removeFile c k =>
      show Inv (remove_file_subscription s c k).1
      unfold remove_file_subscription
      cases hg : PyDict.get s.user_subscriptions c with
      | none => exact ⟨hu, hc⟩
      | some ks =>
          by_cases hk : k ∈ ks
          · by_cases he : ks.erase k = ∅
            · simpa [hk, he] using ⟨nonemptyVals_del _ c hu, hc⟩
            · simpa [hk, he] using ⟨nonemptyVals_set_insert _ c _ he hu, hc⟩
          · simpa [hk] using ⟨hu, hc⟩
  | removeComment c k =>
      show Inv (remove_comment_subscription s c k).1
      unfold remove_comment_subscription
      cases hg : PyDict.get s.comment_subscriptions c with
      | none => exact ⟨hu, hc⟩
      | some ks =>
          by_cases hk : k ∈ ks
          · by_cases he : ks.erase k = ∅
            · simpa [hk, he] using ⟨hu, nonemptyVals_del _ c hc⟩
            · simpa [hk, he] using ⟨hu, nonemptyVals_set_insert _ c _ he hc⟩
          · simpa [hk] using ⟨hu, hc⟩

theorem applyOps_inv (ops : List SubOp) (s : SM) (h : Inv s) :
    Inv (applyOps s ops) := by
  induction ops generalizing s with
  | nil => exact h
  | cons op ops ih => exact ih (applyOp s op) (applyOp_inv s op h)

end SubscriptionManager

/-! ## Claim theorems -/

/-- C1: for a tracked resource whose version fetch fails (falsy result),
`check_file_updates` returns `(changed=false, old=stored baseline, new=null)`,
leaves the whole versions map (hence the stored baseline) unchanged, and the
resource never appears in the list produced by `check_all_updates` in that
pass. -/
theorem fetch_failure_preserves_baseline (fetch : String → String)
    (s : FigmaVersionTracker.VState) (k old : String)
    (h1 : PyDict.get s k = some old) (h2 : fetch k = "")
    (h3 : (PyDict.keys s).Nodup) :
    FigmaVersionTracker.check_file_updates fetch s k = (s, false, some old, none)
    ∧ PyDict.get (FigmaVersionTracker.check_file_updates fetch s k).1 k = some old
    ∧ k ∉ (FigmaVersionTracker.check_all_updates fetch s).2.map
        FigmaVersionTracker.UpdateInfo.file_key := by
  have hc : FigmaVersionTracker.check_file_updates fetch s k =
      (s, false, some old, none) := by
    simp [FigmaVersionTracker.check_file_updates, h1, h2]
  refine ⟨hc, by rw [hc]; exact h1, ?_⟩
  rw [FigmaVersionTracker.check_all_updates_snd fetch s h3,
    FigmaVersionTracker.filterMap_entryOf_map_key]
  intro hmem
  have hch := (List.mem_filter.mp hmem).2
  simp [FigmaVersionTracker.changedNow, h1, h2] at hch

/-- Witness for C1 at a concrete tracked file with a failing fetch. -/
theorem fetch_failure_preserves_baseline_witness :
    FigmaVersionTracker.check_file_updates (fun _ => "") [("f", "v1")] "f" =
      ([("f", "v1")], false, some "v1", none)
    ∧ PyDict.get
        (FigmaVersionTracker.check_file_updates (fun _ => "") [("f", "v1")] "f").1 "f" =
        some "v1"
    ∧ "f" ∉ (FigmaVersionTracker.check_all_updates (fun _ => "") [("f", "v1")]).2.map
        FigmaVersionTracker.UpdateInfo.file_key :=
  fetch_failure_preserves_baseline (fun _ => "") [("f", "v1")] "f" "v1"
    (by decide) rfl (by decide)

/-- C2: for a tracked resource with baseline `v0` and a truthy fetched version
different from `v0`, `check_file_updates` reports `(true, v0, new)`, the
returned state stores the new version as baseline, and an immediate re-check
against the same live version reports no change. -/
theorem version_change_updates_baseline (fetch fetch2 : String → String)
    (s : FigmaVersionTracker.VState) (k v0 : String)
    (h1 : PyDict.get s k = some v0) (h2 : fetch k ≠ "") (h3 : fetch k ≠ v0)
    (h4 : fetch2 k = fetch k) :
    FigmaVersionTracker.check_file_updates fetch s k =
      (PyDict.set s k (fetch k), true, some v0, some (fetch k))
    ∧ PyDict.get (FigmaVersionTracker.check_file_updates fetch s k).1 k =
        some (fetch k)
    ∧ FigmaVersionTracker.check_file_updates fetch2
        (FigmaVersionTracker.check_file_updates fetch s k).1 k =
        ((FigmaVersionTracker.check_file_updates fetch s k).1, false,
          some (fetch k), some (fetch k)) := by
  have hc : FigmaVersionTracker.check_file_updates fetch s k =
      (PyDict.set s k (fetch k), true, some v0, some (fetch k)) := by
    simp [FigmaVersionTracker.check_file_updates, h1, h2, Ne.symm h3]
  refine ⟨hc, ?_, ?_⟩
  · rw [hc]
    exact PyDict.get_set_self s k (fetch k)
  · rw [hc]
    simp [FigmaVersionTracker.check_file_updates, PyDict.get_set_self, h4, h2]

/-- Witness for C2 at a concrete tracked file whose version moves from
`"v1"` to `"v2"` and then stays at `"v2"`. -/
theorem version_change_updates_baseline_witness :
    FigmaVersionTracker.check_file_updates (fun _ => "v2") [("f", "v1")] "f" =
      (PyDict.set [("f", "v1")] "f" "v2", true, some "v1", some "v2")
    ∧ PyDict.get
        (FigmaVersionTracker.check_file_updates (fun _ => "v2") [("f", "v1")] "f").1 "f" =
        some "v2"
    ∧ FigmaVersionTracker.check_file_updates (fun _ => "v2")
        (FigmaVersionTracker.check_file_updates (fun _ => "v2") [("f", "v1")] "f").1 "f" =
        ((FigmaVersionTracker.check_file_updates (fun _ => "v2") [("f", "v1")] "f").1,
          false, some "v2", some "v2") :=
  version_change_updates_baseline (fun _ => "v2") (fun _ => "v2") [("f", "v1")] "f" "v1"
    (by decide) (by decide) (by decide) rfl

/-- C3: `add_file_to_track` on the version tracker is a no-op on an already
tracked resource, whatever a fresh fetch would return: the whole versions map
is returned unchanged. -/
theorem version_add_tracked_is_noop (fetch : String → String)
    (s : FigmaVersionTracker.VState) (k : String)
    (h : (PyDict.get s k).isSome) :
    FigmaVersionTracker.add_file_to_track fetch s k = s := by
  simp [FigmaVersionTracker.add_file_to_track, h]

/-- Witness for C3: re-tracking a tracked file with a fetch that would return
a different version leaves the map untouched. -/
theorem version_add_tracked_is_noop_witness :
    FigmaVersionTracker.add_file_to_track (fun _ => "v9") [("f", "v1")] "f" =
      [("f", "v1")] :=
  version_add_tracked_is_noop (fun _ => "v9") [("f", "v1")] "f" (by decide)

/-- C8: in one sweep, the keys of the list returned by `check_all_updates`
are exactly the tracked resources whose fetched version changed in this pass,
each appearing at most once. -/
theorem check_all_updates_exactly_changed (fetch : String → String)
    (s : FigmaVersionTracker.VState)
    (h : (PyDict.keys s).Nodup) :
    (FigmaVersionTracker.check_all_updates fetch s).2.map
        FigmaVersionTracker.UpdateInfo.file_key =
      (PyDict.keys s).filter (FigmaVersionTracker.changedNow fetch s)
    ∧ ((FigmaVersionTracker.check_all_updates fetch s).2.map
        FigmaVersionTracker.UpdateInfo.file_key).Nodup := by
  have h1 := FigmaVersionTracker.check_all_updates_snd fetch s h
  have h2 := FigmaVersionTracker.filterMap_entryOf_map_key fetch s (PyDict.keys s)
  refine ⟨by rw [h1, h2], ?_⟩
  rw [h1, h2]
  exact h.filter _

/-- Witness for C8: with files `a` (changed) and `b` (unchanged), the sweep
reports exactly `a`, once. -/
theorem check_all_updates_exactly_changed_witness :
    (FigmaVersionTracker.check_all_updates
        (fun k => if k = "a" then "v9" else "v2") [("a", "v1"), ("b", "v2")]).2.map
        FigmaVersionTracker.UpdateInfo.file_key =
      (PyDict.keys [("a", "v1"), ("b", "v2")]).filter
        (FigmaVersionTracker.changedNow
          (fun k => if k = "a" then "v9" else "v2") [("a", "v1"), ("b", "v2")])
    ∧ ((FigmaVersionTracker.check_all_updates
        (fun k => if k = "a" then "v9" else "v2") [("a", "v1"), ("b", "v2")]).2.map
        FigmaVersionTracker.UpdateInfo.file_key).Nodup :=
  check_all_updates_exactly_changed (fun k => if k = "a" then "v9" else "v2")
    [("a", "v1"), ("b", "v2")] (by decide)

/-- C9: a failing fetch during `add_file_to_track` of an untracked resource
leaves the versions map unchanged, and a subsequent `check_file_updates` on
that resource answers `(false, null, null)` as for any untracked resource. -/
theorem version_add_fetch_failure_noop (fetch : String → String)
    (s : FigmaVersionTracker.VState) (k : String)
    (h1 : PyDict.get s k = none) (h2 : fetch k = "") :
    FigmaVersionTracker.add_file_to_track fetch s k = s
    ∧ ∀ fetch2 : String → String,
        FigmaVersionTracker.check_file_updates fetch2
          (FigmaVersionTracker.add_file_to_track fetch s k) k =
          (FigmaVersionTracker.add_file_to_track fetch s k, false, none, none) := by
  have ha : FigmaVersionTracker.add_file_to_track fetch s k = s := by
    simp [FigmaVersionTracker.add_file_to_track, h1, h2]
  refine ⟨ha, fun fetch2 => ?_⟩
  rw [ha]
  simp [FigmaVersionTracker.check_file_updates, h1]

/-- Witness for C9 at a concrete untracked file with a failing fetch,
re-checked against a later fetch that would succeed. -/
theorem version_add_fetch_failure_noop_witness :
    FigmaVersionTracker.add_file_to_track (fun _ => "") [("g", "v1")] "f" =
      [("g", "v1")]
    ∧ FigmaVersionTracker.check_file_updates (fun _ => "v5")
        (FigmaVersionTracker.add_file_to_track (fun _ => "") [("g", "v1")] "f") "f" =
        (FigmaVersionTracker.add_file_to_track (fun _ => "") [("g", "v1")] "f",
          false, none, none) := by
  have h := version_add_fetch_failure_noop (fun _ => "") [("g", "v1")] "f" (by decide) rfl
  exact ⟨h.1, h.2 (fun _ => "v5")⟩

/-- C4: re-tracking an already tracked resource on the comment tracker sets
its seen-set to the union of the existing seen-set and the freshly fetched
IDs: no previously known ID is lost, and fresh IDs are added. -/
theorem comment_retrack_unions_seen_set
    (fetchComments : String → List FigmaCommentTracker.Comment)
    (s : FigmaCommentTracker.CState) (k : String) (seen : Finset String)
    (h : PyDict.get s k = some seen) :
    PyDict.get (FigmaCommentTracker.add_file_to_track fetchComments s k) k =
      some (seen ∪ FigmaCommentTracker.idsOf (fetchComments k))
    ∧ (∀ i ∈ seen,
        i ∈ seen ∪ FigmaCommentTracker.idsOf (fetchComments k))
    ∧ ∀ i ∈ FigmaCommentTracker.idsOf (fetchComments k),
        i ∈ seen ∪ FigmaCommentTracker.idsOf (fetchComments k) := by
  refine ⟨?_, fun i hi => Finset.mem_union_left _ hi,
    fun i hi => Finset.mem_union_right _ hi⟩
  simp [FigmaCommentTracker.add_file_to_track, h, PyDict.get_set_self]

/-- Witness for C4: re-tracking a file whose seen-set holds `c1` while the
fetch now returns a comment `c2`. -/
theorem comment_retrack_unions_seen_set_witness :
    PyDict.get (FigmaCommentTracker.add_file_to_track
        (fun _ => [⟨some "c2", "m"⟩]) [("f", ({"c1"} : Finset String))] "f") "f" =
      some (({"c1"} : Finset String) ∪
        FigmaCommentTracker.idsOf [⟨some "c2", "m"⟩])
    ∧ (∀ i ∈ ({"c1"} : Finset String),
        i ∈ ({"c1"} : Finset String) ∪ FigmaCommentTracker.idsOf [⟨some "c2", "m"⟩])
    ∧ ∀ i ∈ FigmaCommentTracker.idsOf [⟨some "c2", "m"⟩],
        i ∈ ({"c1"} : Finset String) ∪ FigmaCommentTracker.idsOf [⟨some "c2", "m"⟩] :=
  comment_retrack_unions_seen_set (fun _ => [⟨some "c2", "m"⟩])
    [("f", ({"c1"} : Finset String))] "f" ({"c1"} : Finset String) (by decide)

/-- C5: for a tracked resource, `check_file_comments` returns exactly the
fetched comments whose (truthy) ID is absent from the stored seen-set and
adds all fetched IDs into the seen-set, leaving other resources untouched;
for an untracked resource it returns empty and changes nothing, whatever the
collaborator would answer.  The fetched IDs are assumed pairwise distinct,
the data-model invariant of comment IDs. -/
theorem check_comments_exactly_new
    (fetchComments : String → List FigmaCommentTracker.Comment)
    (s : FigmaCommentTracker.CState) (k : String)
    (hnd : ((fetchComments k).filterMap FigmaCommentTracker.truthyId).Nodup) :
    (PyDict.get s k = none →
      FigmaCommentTracker.check_file_comments fetchComments s k = (s, [], false))
    ∧ ∀ seen, PyDict.get s k = some seen →
        (FigmaCommentTracker.check_file_comments fetchComments s k).2.1 =
          (fetchComments k).filter (FigmaCommentTracker.isNewFor seen)
        ∧ PyDict.get
            (FigmaCommentTracker.check_file_comments fetchComments s k).1 k =
            some (seen ∪ FigmaCommentTracker.idsOf (fetchComments k))
        ∧ ∀ k2, k2 ≠ k →
            PyDict.get
              (FigmaCommentTracker.check_file_comments fetchComments s k).1 k2 =
              PyDict.get s k2 := by
  constructor
  · intro h0
    simp [FigmaCommentTracker.check_file_comments, h0]
  · intro seen hs
    exact FigmaCommentTracker.check_file_comments_tracked fetchComments s k seen hs hnd

/-- Witness for C5: seen-set `{c1}`, live comments `c1, c2`; only `c2` is
reported, the seen-set absorbs both IDs, and the other tracked file `g` is
untouched. -/
theorem check_comments_exactly_new_witness :
    (FigmaCommentTracker.check_file_comments
        (fun _ => [⟨some "c1", "m1"⟩, ⟨some "c2", "m2"⟩])
        [("f", ({"c1"} : Finset String)), ("g", (∅ : Finset String))] "f").2.1 =
      [⟨some "c1", "m1"⟩, ⟨some "c2", "m2"⟩].filter
        (FigmaCommentTracker.isNewFor ({"c1"} : Finset String))
    ∧ PyDict.get
        (FigmaCommentTracker.check_file_comments
          (fun _ => [⟨some "c1", "m1"⟩, ⟨some "c2", "m2"⟩])
          [("f", ({"c1"} : Finset String)), ("g", (∅ : Finset String))] "f").1 "f" =
        some (({"c1"} : Finset String) ∪
          FigmaCommentTracker.idsOf [⟨some "c1", "m1"⟩, ⟨some "c2", "m2"⟩])
    ∧ PyDict.get
        (FigmaCommentTracker.check_file_comments
          (fun _ => [⟨some "c1", "m1"⟩, ⟨some "c2", "m2"⟩])
          [("f", ({"c1"} : Finset String)), ("g", (∅ : Finset String))] "f").1 "g" =
        PyDict.get
          [("f", ({"c1"} : Finset String)), ("g", (∅ : Finset String))] "g" := by
  have h := (check_comments_exactly_new
      (fun _ => [⟨some "c1", "m1"⟩, ⟨some "c2", "m2"⟩])
      [("f", ({"c1"} : Finset String)), ("g", (∅ : Finset String))] "f"
      (by decide)).2 ({"c1"} : Finset String) (by decide)
  exact ⟨h.1, h.2.1, h.2.2 "g" (by decide)⟩

/-- C6: `reset_comments_for_file` returns `false` and changes nothing on an
untracked resource; on a tracked resource it empties the seen-set, returns
`true`, and the immediately following `check_file_comments` reports every
currently live comment (all carrying distinct truthy IDs) as new exactly
once, i.e. returns the fetched list itself. -/
theorem reset_then_check_reports_all
    (fetchComments : String → List FigmaCommentTracker.Comment)
    (s : FigmaCommentTracker.CState) (k : String) :
    (PyDict.get s k = none →
      FigmaCommentTracker.reset_comments_for_file s k = (s, false))
    ∧ ∀ seen, PyDict.get s k = some seen →
        (FigmaCommentTracker.reset_comments_for_file s k).2 = true
        ∧ PyDict.get (FigmaCommentTracker.reset_comments_for_file s k).1 k =
            some (∅ : Finset String)
        ∧ (((fetchComments k).filterMap FigmaCommentTracker.truthyId).Nodup →
            (∀ c ∈ fetchComments k, (FigmaCommentTracker.truthyId c).isSome) →
            (FigmaCommentTracker.check_file_comments fetchComments
              (FigmaCommentTracker.reset_comments_for_file s k).1 k).2.1 =
              fetchComments k) := by
  constructor
  · intro h0
    simp [FigmaCommentTracker.reset_comments_for_file, h0]
  · intro seen hs
    have hres : FigmaCommentTracker.reset_comments_for_file s k =
        (PyDict.set s k ∅, true) := by
      simp [FigmaCommentTracker.reset_comments_for_file, hs]
    have hget : PyDict.get (FigmaCommentTracker.reset_comments_for_file s k).1 k =
        some (∅ : Finset String) := by
      rw [hres]
      exact PyDict.get_set_self s k ∅
    refine ⟨by rw [hres], hget, ?_⟩
    intro hnd hall
    have h := FigmaCommentTracker.check_file_comments_tracked fetchComments
      (FigmaCommentTracker.reset_comments_for_file s k).1 k ∅ hget hnd
    rw [h.1]
    refine List.filter_eq_self.mpr ?_
    intro c hc
    have hsome := hall c hc
    unfold FigmaCommentTracker.isNewFor
    cases ht : FigmaCommentTracker.truthyId c with
    | none => rw [ht] at hsome; simp at hsome
    | some i => simp

/-- Witness for C6: resetting file `f` (seen-set `{c1}`) empties its set and
a check against live comments `c1, c2` reports both. -/
theorem reset_then_check_reports_all_witness :
    (FigmaCommentTracker.reset_comments_for_file
        [("f", ({"c1"} : Finset String))] "f").2 = true
    ∧ PyDict.get (FigmaCommentTracker.reset_comments_for_file
        [("f", ({"c1"} : Finset String))] "f").1 "f" = some (∅ : Finset String)
    ∧ (FigmaCommentTracker.check_file_comments
        (fun _ => [⟨some "c1", "m1"⟩, ⟨some "c2", "m2"⟩])
        (FigmaCommentTracker.reset_comments_for_file
          [("f", ({"c1"} : Finset String))] "f").1 "f").2.1 =
        [⟨some "c1", "m1"⟩, ⟨some "c2", "m2"⟩] := by
  have h := (reset_then_check_reports_all
      (fun _ => [⟨some "c1", "m1"⟩, ⟨some "c2", "m2"⟩])
      [("f", ({"c1"} : Finset String))] "f").2 ({"c1"} : Finset String) (by decide)
  exact ⟨h.1, h.2.1, h.2.2 (by decide) (by decide)⟩

/-- C7: `add_file_subscription` is idempotent — adding the same
`(subscriber, resource)` edge twice yields exactly the state of adding it
once — and, for any state whose subscriber keys are distinct (as dict keys
are), `get_file_subscribers` lists each subscriber at most once. -/
theorem add_subscription_idem_and_unique (s : SubscriptionManager.SM)
    (c : Int) (k k2 : String)
    (h : (PyDict.keys s.user_subscriptions).Nodup) :
    SubscriptionManager.add_file_subscription
        (SubscriptionManager.add_file_subscription s c k) c k =
      SubscriptionManager.add_file_subscription s c k
    ∧ (SubscriptionManager.get_file_subscribers s k2).Nodup := by
  constructor
  · simp [SubscriptionManager.add_file_subscription, PyDict.get_set_self,
      PyDict.set_set_same, Finset.insert_idem]
  · exact h.sublist ((List.filter_sublist _).map Prod.fst)

/-- Witness for C7: chats 1 and 2 subscribed, chat 2 re-subscribes to `a`
twice; the registry is unchanged by the second call and `a`'s subscriber list
has no duplicates. -/
theorem add_subscription_idem_and_unique_witness :
    SubscriptionManager.add_file_subscription
        (SubscriptionManager.add_file_subscription
          (SubscriptionManager.SM.mk
            [(1, ({"a"} : Finset String)), (2, ({"b"} : Finset String))] []) 2 "a") 2 "a" =
      SubscriptionManager.add_file_subscription
        (SubscriptionManager.SM.mk
          [(1, ({"a"} : Finset String)), (2, ({"b"} : Finset String))] []) 2 "a"
    ∧ (SubscriptionManager.get_file_subscribers
        (SubscriptionManager.SM.mk
          [(1, ({"a"} : Finset String)), (2, ({"b"} : Finset String))] []) "a").Nodup :=
  add_subscription_idem_and_unique
    (SubscriptionManager.SM.mk
      [(1, ({"a"} : Finset String)), (2, ({"b"} : Finset String))] []) 2 "a" "a"
    (by decide)

/-- C10: after any sequence of add/remove subscription calls starting from
the empty registry, every subscriber entry present in either subscription
dict carries a non-empty resource set (a removal that empties a set deletes
the entry). -/
theorem registry_never_maps_to_empty_set (ops : List SubscriptionManager.SubOp) :
    SubscriptionManager.Inv
      (SubscriptionManager.applyOps SubscriptionManager.initial ops) :=
  SubscriptionManager.applyOps_inv ops SubscriptionManager.initial
    ⟨fun p hp => absurd hp (List.not_mem_nil p),
      fun p hp => absurd hp (List.not_mem_nil p)⟩
